import Mathlib

/-!
Verification of the serial command/response protocol decoder of the battery
tool (`Bus.send_cmd` in `battery_gui.py`, the FrameCodec of the design
document).  The decode step of `send_cmd` (lines 68-80) is embedded as a pure
function from the outbound command string and the accumulated response buffer
to the Python outcome (returned `None`, returned `(latency, bat_readings)`
pair, or an uncaught `ValueError` raised by `int(.., 16)`).
-/

namespace BatterySys

/-- Python string slicing `s[a:b]` on a list of characters: a negative bound
counts from the end of the string and every bound is clamped into range, so
the operation is total.  This mirrors the fixed-offset slicing used throughout
`Bus.send_cmd` (`msg[len(cmd)-ques_len:len(cmd)]`, `msg[len(cmd)+1:-etx_len]`,
and so on). -/
def pySlice (l : List Char) (a b : Int) : List Char :=
  let n : Int := l.length
  let a2 : Int := if a < 0 then max (n + a) 0 else a
  let b2 : Int := if b < 0 then max (n + b) 0 else b
  (l.take b2.toNat).drop a2.toNat

/-- The ASCII hexadecimal digits accepted by CPython's `int(s, 16)`, with
their values: `0`-`9`, `a`-`f` and `A`-`F`. -/
def hexDigitTable : List (Char × Nat) :=
  [('0', 0), ('1', 1), ('2', 2), ('3', 3), ('4', 4), ('5', 5), ('6', 6),
   ('7', 7), ('8', 8), ('9', 9),
   ('a', 10), ('b', 11), ('c', 12), ('d', 13), ('e', 14), ('f', 15),
   ('A', 10), ('B', 11), ('C', 12), ('D', 13), ('E', 14), ('F', 15)]

/-- Value of one hexadecimal digit character, `none` when the character is not
an ASCII base-16 digit. -/
def hexVal (ch : Char) : Option Nat :=
  (hexDigitTable.find? (fun p => p.1 = ch)).map Prod.snd

/-- Loop of CPython's base-16 digit scanner after the first digit has been
read: further digits accumulate into `acc`, a single underscore is permitted
between two digits (PEP 515), anything else is a parse failure. -/
def goDigits (acc : Nat) : List Char → Option Nat
  | [] => some acc
  | ch :: rest =>
    if ch = '_' then
      match rest with
      | [] => none
      | ch2 :: rest2 =>
        match hexVal ch2 with
        | some d => goDigits (acc * 16 + d) rest2
        | none => none
    else
      match hexVal ch with
      | some d => goDigits (acc * 16 + d) rest
      | none => none

/-- A nonempty run of base-16 digits (with optional single underscores between
digits); the first character must be a digit. -/
def parseDigits : List Char → Option Nat
  | [] => none
  | ch :: rest =>
    match hexVal ch with
    | some d => goDigits d rest
    | none => none

/-- Digit run after an explicit `0x`/`0X` base marker: CPython additionally
allows one underscore directly after the marker. -/
def parseAfterMark (l : List Char) : Option Nat :=
  match l with
  | ch :: rest => if ch = '_' then parseDigits rest else parseDigits l
  | [] => none

/-- Unsigned part of a base-16 integer literal: an optional `0x`/`0X` marker
followed by the digit run. -/
def parseBody (l : List Char) : Option Nat :=
  match l with
  | c0 :: c1 :: rest =>
    if c0 = '0' ∧ (c1 = 'x' ∨ c1 = 'X') then parseAfterMark rest
    else parseDigits (c0 :: c1 :: rest)
  | _ => parseDigits l

/-- Optionally signed base-16 integer literal. -/
def parseSigned (l : List Char) : Option Int :=
  match l with
  | ch :: rest =>
    if ch = '+' then (parseBody rest).map Int.ofNat
    else if ch = '-' then (parseBody rest).map (fun n => -Int.ofNat n)
    else (parseBody (ch :: rest)).map Int.ofNat
  | [] => none

/-- The ASCII characters CPython's `int` parser strips as surrounding
whitespace (`Py_ISSPACE` in `pyctype.c`): space, `\t`, `\n`, `\v`, `\f` and
`\r` only.  The separator control characters `\x1c`-`\x1f` are *not*
stripped by `int`, even though `str.isspace` reports them as whitespace:
`int('\x1c5', 16)` raises `ValueError`. -/
def isPySpace (ch : Char) : Bool :=
  ch = ' ' || ch = '\t' || ch = '\n' || ch = '\x0b' || ch = '\x0c' ||
  ch = '\r'

/-- Strip leading and trailing whitespace. -/
def stripPySpace (l : List Char) : List Char :=
  ((l.dropWhile isPySpace).reverse.dropWhile isPySpace).reverse

/-- Python's `int(s, 16)` restricted to ASCII strings: strip surrounding
`Py_ISSPACE` whitespace, then parse an optionally signed, optionally
`0x`-marked run of base-16 digits.  `none` models the `ValueError` raised on
a malformed literal.  On ASCII input (characters below `\x80`) this is exact;
acceptance of non-ASCII Unicode decimal digits and spaces (such as `\x85`) is
not modelled, which is why the statements that characterise the raise
condition carry an ASCII hypothesis. -/
def pyIntHex (l : List Char) : Option Int :=
  parseSigned (stripPySpace l)

/-- The set `self.bat_ques_set = set(['?v', '?i', '?p', '?k', 'q', '?c'])` of
valid questions (battery_gui.py line 37). -/
def batQuesSet : List (List Char) :=
  [['?', 'v'], ['?', 'i'], ['?', 'p'], ['?', 'k'], ['q'], ['?', 'c']]

/-- The set `self.bat_pack_set = set(['#bat1', '#bat2', '#bat3', '#bat4'])` of
valid battery pack names (battery_gui.py line 38). -/
def batPackSet : List (List Char) :=
  [['#', 'b', 'a', 't', '1'], ['#', 'b', 'a', 't', '2'],
   ['#', 'b', 'a', 't', '3'], ['#', 'b', 'a', 't', '4']]

/-- Constant `hex_len = 4`, length of each hex message. -/
def hexLen : Nat := 4

/-- Constant `ques_len = 2`, length of a battery question such as `?v`. -/
def quesLen : Nat := 2

/-- Constant `etx_len = 3`, length of the battery response terminator `ETX`. -/
def etxLen : Nat := 3

/-- Constant `max_bat_num = 10`, maximum number of batteries on a pack. -/
def maxBatNum : Nat := 10

/-- The `elif` guard of `send_cmd` (line 72):
`msg[len(cmd)-ques_len:len(cmd)] in self.bat_ques_set and
 msg[:len(cmd)-ques_len] in self.bat_pack_set`.
The command enters the guard only through its length `n = len(cmd)`. -/
def echoValid (n : Nat) (msg : List Char) : Prop :=
  pySlice msg ((n : Int) - (quesLen : Int)) (n : Int) ∈ batQuesSet ∧
  pySlice msg 0 ((n : Int) - (quesLen : Int)) ∈ batPackSet

instance (n : Nat) (msg : List Char) : Decidable (echoValid n msg) := by
  unfold echoValid; exact inferInstance

/-- The slice `msg[len(cmd)+1:-etx_len]`, the data portion the decoder slices
fields out of; `n = len(cmd)`. -/
def payload (n : Nat) (msg : List Char) : List Char :=
  pySlice msg ((n : Int) + 1) (-(etxLen : Int))

/-- The slice `msg[len(cmd)+1:-etx_len][:hex_len]`, the latency field
(line 78). -/
def latField (n : Nat) (msg : List Char) : List Char :=
  pySlice (payload n msg) 0 (hexLen : Int)

/-- The list `bat_readings` (line 75): for `i` in `1..max_bat_num`, the slice
`msg[len(cmd)+1:-etx_len][i*(hex_len+1):i*(hex_len+1)+hex_len]`. -/
def batReadings (n : Nat) (msg : List Char) : List (List Char) :=
  (List.range maxBatNum).map fun i =>
    pySlice (payload n msg) (((i + 1) * (hexLen + 1) : Nat) : Int)
      (((i + 1) * (hexLen + 1) + hexLen : Nat) : Int)

/-- Outcome of the decode step of `Bus.send_cmd`: the Python function returns
`None`, returns a `(latency, bat_readings)` pair, or lets a `ValueError`
escape from `int(.., hex_base)`. -/
inductive PyResult where
  | exn : PyResult
  | retNone : PyResult
  | reading (latency : Int) (readings : List (List Char)) : PyResult
deriving DecidableEq

/-- The decode step of `Bus.send_cmd` (battery_gui.py lines 68-80), as a pure
function of the command `cmd` and the buffer `msg` accumulated during the wait
window.  If `len(msg) == len(cmd)` the function returns `None` (echo only);
otherwise, if the guard on the echoed prefix passes, it slices out the ten
readings and parses the latency field with `int(.., 16)` (which raises
`ValueError` on a malformed field); in every other case the Python function
falls off the end and returns `None`. -/
def sendCmdDecode (cmd msg : List Char) : PyResult :=
  if msg.length = cmd.length then .retNone
  else if echoValid cmd.length msg then
    match pyIntHex (latField cmd.length msg) with
    | some latency => .reading latency (batReadings cmd.length msg)
    | none => .exn
  else .retNone

/-- The command `"#bat1?v"` used in the worked example of the spec. -/
def cmdBat1V : List Char := ['#', 'b', 'a', 't', '1', '?', 'v']

/-- Rendering of a latency value `n < 16^4` as the four-hex-digit field the
device places in its reply. -/
def hexDigitChar (d : Nat) : Char :=
  if d < 10 then Char.ofNat ('0'.toNat + d) else Char.ofNat ('a'.toNat + d - 10)

/-- Four-hex-digit rendering of `n` (most significant digit first). -/
def toHex4 (n : Nat) : List Char :=
  [hexDigitChar (n / 4096 % 16), hexDigitChar (n / 256 % 16),
   hexDigitChar (n / 16 % 16), hexDigitChar (n % 16)]

/-- Reading tokens each followed by its single-character separator, as in the
spec's illustrative reply `.. + "00c8_" + "0190_" + ..`. -/
def trailGlue (toks : List (List Char)) (seps : List Char) : List Char :=
  (List.zipWith (fun t s => t ++ [s]) toks seps).flatten

/-- Reading tokens each preceded by its single-character separator. -/
def leadGlue (seps : List Char) (toks : List (List Char)) : List Char :=
  (List.zipWith (fun s t => s :: t) seps toks).flatten

/-- Modelled from the spec: the synthetically constructed valid reply of the
round-trip property, following the spec's words and its worked example — the
echo of the command, then the four-hex-digit latency field, then the ten
reading tokens with their single-character separators, then the fixed-length
terminator. -/
def specReply (cmd : List Char) (L : Nat) (toks : List (List Char))
    (seps etx : List Char) : List Char :=
  cmd ++ toHex4 L ++ trailGlue toks seps ++ etx

/-- The reply layout the code's slicing actually consumes: one separator
character additionally sits between the echo and the latency field (every
four-character field is preceded by its separator). -/
def sepReply (cmd : List Char) (L : Nat) (toks : List (List Char))
    (sep0 : Char) (seps etx : List Char) : List Char :=
  cmd ++ [sep0] ++ toHex4 L ++ leadGlue seps toks ++ etx

/-- The ten reading tokens of the spec's worked example: `00c8`, `0190` and
eight `0000` fillers. -/
def exToks : List (List Char) :=
  [['0', '0', 'c', '8'], ['0', '1', '9', '0']] ++
    List.replicate 8 ['0', '0', '0', '0']

/-- The window-captured buffer of the spec's worked example, exactly as the
spec writes it: `"#bat1?v" + "0005" + "00c8_" + "0190_" + "0000_"*8 + "ETX"`. -/
def bufSpecExample : List Char :=
  cmdBat1V ++ ['0', '0', '0', '5'] ++ ['0', '0', 'c', '8', '_'] ++
    ['0', '1', '9', '0', '_'] ++
    (List.replicate 8 ['0', '0', '0', '0', '_']).flatten ++ ['E', 'T', 'X']

/-- The worked example's buffer with one separator in front of every
four-character field, which is the layout the code decodes. -/
def bufSepExample : List Char :=
  cmdBat1V ++ ['_', '0', '0', '0', '5'] ++ ['_', '0', '0', 'c', '8'] ++
    ['_', '0', '1', '9', '0'] ++
    (List.replicate 8 ['_', '0', '0', '0', '0']).flatten ++ ['E', 'T', 'X']

/-- A buffer whose accepted latency field is the signed literal `-fff`. -/
def bufNegLat : List Char := cmdBat1V ++ ['X', '-', 'f', 'f', 'f'] ++ ['E', 'T', 'X']

/-- A buffer whose latency field `GGGG` is not a base-16 literal. -/
def bufBadLat : List Char := cmdBat1V ++ ['X', 'G', 'G', 'G', 'G'] ++ ['E', 'T', 'X']

/-- A buffer so short that its latency field is empty. -/
def bufEmptyLat : List Char := cmdBat1V ++ ['E', 'T', 'X']

/-- A buffer whose first reading token comes out as the two-character,
non-hex string `zz`. -/
def bufShortTok : List Char :=
  cmdBat1V ++ ['X', '0', '0', '0', '5', '_', 'z', 'z'] ++ ['E', 'T', 'X']

/-- A buffer with all ten reading slots populated by ten distinct tokens. -/
def bufTenSlots : List Char :=
  cmdBat1V ++
    ['_', '0', '0', '0', '5', '_', '0', '0', '0', '1', '_', '0', '0', '0', '2',
     '_', '0', '0', '0', '3', '_', '0', '0', '0', '4', '_', '0', '0', '0', '5',
     '_', '0', '0', '0', '6', '_', '0', '0', '0', '7', '_', '0', '0', '0', '8',
     '_', '0', '0', '0', '9', '_', '0', '0', '0', 'a'] ++ ['E', 'T', 'X']

/-- The ten tokens carried by `bufTenSlots`, in slot order. -/
def tenToks : List (List Char) :=
  [['0', '0', '0', '1'], ['0', '0', '0', '2'], ['0', '0', '0', '3'],
   ['0', '0', '0', '4'], ['0', '0', '0', '5'], ['0', '0', '0', '6'],
   ['0', '0', '0', '7'], ['0', '0', '0', '8'], ['0', '0', '0', '9'],
   ['0', '0', '0', 'a']]

/-- A buffer with only the first three reading slots populated. -/
def bufThreeSlots : List Char :=
  cmdBat1V ++
    ['_', '0', '0', '0', '5', '_', '0', '0', 'c', '8', '_', '0', '1', '9', '0',
     '_', '0', '1', '2', '3'] ++ ['E', 'T', 'X']

section SliceLemmas

/-- A Python slice with nonnegative bounds is drop-after-take. -/
lemma pySlice_of_nonneg (l : List Char) (a b : Int) (ha : 0 ≤ a) (hb : 0 ≤ b) :
    pySlice l a b = (l.take b.toNat).drop a.toNat := by
  simp only [pySlice]
  rw [if_neg (by omega), if_neg (by omega)]

/-- A Python slice with natural-number bounds is drop-after-take. -/
lemma pySlice_nat (l : List Char) (a b : Nat) :
    pySlice l (a : Int) (b : Int) = (l.take b).drop a := by
  rw [pySlice_of_nonneg l _ _ (by omega) (by omega)]
  simp

/-- A Python slice with a negative end bound `-k` stops `k` characters before
the end of the string. -/
lemma pySlice_negEnd (l : List Char) (a k : Nat) (hk : 0 < k) :
    pySlice l (a : Int) (-(k : Int)) = (l.take (l.length - k)).drop a := by
  simp only [pySlice]
  rw [if_neg (by omega), if_pos (by omega)]
  have h1 : (max ((l.length : Int) + -(k : Int)) 0).toNat = l.length - k := by omega
  have h2 : ((a : Int)).toNat = a := by omega
  rw [h1, h2]

/-- A slice of width `k` has at most `k` characters. -/
lemma length_pySlice_le (l : List Char) (a k : Nat) :
    (pySlice l (a : Int) ((a + k : Nat) : Int)).length ≤ k := by
  rw [pySlice_nat]
  simp only [List.length_drop, List.length_take]
  omega

end SliceLemmas

section ParserLemmas

/-- Characters recognised as hexadecimal digits are members of the digit
table. -/
lemma hexVal_mem {ch : Char} {d : Nat} (h : hexVal ch = some d) :
    (ch, d) ∈ hexDigitTable := by
  unfold hexVal at h
  cases hfind : hexDigitTable.find? (fun p => p.1 = ch) with
  | none => rw [hfind] at h; cases h
  | some p =>
    rw [hfind] at h
    have hp := List.mem_of_find?_eq_some hfind
    have hpe := List.find?_some hfind
    simp only [Option.map_some', Option.some.injEq] at h
    simp only [decide_eq_true_eq] at hpe
    have : p = (ch, d) := by
      cases p with
      | mk x y => simp_all
    rw [this] at hp
    exact hp

/-- A hexadecimal digit value is at most 15. -/
lemma hexVal_le {ch : Char} {d : Nat} (h : hexVal ch = some d) : d ≤ 15 := by
  have hm := hexVal_mem h
  fin_cases hm <;> decide

/-- A hexadecimal digit character is not an underscore, a sign, a base marker
or whitespace. -/
lemma hexVal_not_special {ch : Char} {d : Nat} (h : hexVal ch = some d) :
    ch ≠ '_' ∧ ch ≠ '+' ∧ ch ≠ '-' ∧ ch ≠ 'x' ∧ ch ≠ 'X' ∧
      isPySpace ch = false := by
  have hm := hexVal_mem h
  fin_cases hm <;> decide

/-- Dropping while a predicate that holds nowhere leaves the list intact. -/
lemma dropWhile_eq_self_of_forall {p : Char → Bool} {l : List Char}
    (h : ∀ ch ∈ l, p ch = false) : l.dropWhile p = l := by
  cases l with
  | nil => rfl
  | cons a t =>
    rw [List.dropWhile_cons, h a (List.mem_cons_self a t)]
    simp

/-- Stripping whitespace from a whitespace-free string does nothing. -/
lemma stripPySpace_eq_self {l : List Char}
    (h : ∀ ch ∈ l, isPySpace ch = false) : stripPySpace l = l := by
  unfold stripPySpace
  rw [dropWhile_eq_self_of_forall h,
    dropWhile_eq_self_of_forall (fun ch hm => h ch (List.mem_reverse.mp hm)),
    List.reverse_reverse]

/-- Digit accumulation can multiply the accumulator by 16 once per remaining
character, and no more. -/
lemma goDigits_bound (fuel : Nat) :
    ∀ (l : List Char), l.length ≤ fuel → ∀ (acc v : Nat),
      goDigits acc l = some v → v < (acc + 1) * 16 ^ l.length := by
  induction fuel with
  | zero =>
    intro l hl acc v h
    have hnil : l = [] := List.length_eq_zero.mp (Nat.le_zero.mp hl)
    subst hnil
    simp only [goDigits, Option.some.injEq] at h
    subst h
    simpa using Nat.lt_succ_self acc
  | succ n ih =>
    intro l hl acc v h
    cases l with
    | nil =>
      simp only [goDigits, Option.some.injEq] at h
      subst h
      simpa using Nat.lt_succ_self acc
    | cons ch rest =>
      rw [goDigits.eq_def] at h
      simp only at h
      by_cases hu : ch = '_'
      · rw [if_pos hu] at h
        cases rest with
        | nil => cases h
        | cons ch2 rest2 =>
          simp only at h
          cases hv : hexVal ch2 with
          | none => rw [hv] at h; cases h
          | some d =>
            rw [hv] at h
            have hd : d ≤ 15 := hexVal_le hv
            have hlen : rest2.length ≤ n := by
              simp only [List.length_cons] at hl
              omega
            have hrec := ih rest2 hlen (acc * 16 + d) v h
            have hle : (acc * 16 + d + 1) * 16 ^ rest2.length ≤
                ((acc + 1) * 256) * 16 ^ rest2.length :=
              Nat.mul_le_mul_right _ (by omega)
            have hpow : ((acc + 1) * 256) * 16 ^ rest2.length =
                (acc + 1) * 16 ^ (rest2.length + 2) := by
              rw [pow_add]
              ring
            simp only [List.length_cons]
            calc v < (acc * 16 + d + 1) * 16 ^ rest2.length := hrec
              _ ≤ ((acc + 1) * 256) * 16 ^ rest2.length := hle
              _ = (acc + 1) * 16 ^ (rest2.length + 2) := hpow
              _ = (acc + 1) * 16 ^ (rest2.length + 1 + 1) := by ring_nf
      · rw [if_neg hu] at h
        cases hv : hexVal ch with
        | none => rw [hv] at h; cases h
        | some d =>
          rw [hv] at h
          have hd : d ≤ 15 := hexVal_le hv
          have hlen : rest.length ≤ n := by
            simp only [List.length_cons] at hl
            omega
          have hrec := ih rest hlen (acc * 16 + d) v h
          have hle : (acc * 16 + d + 1) * 16 ^ rest.length ≤
              ((acc + 1) * 16) * 16 ^ rest.length :=
            Nat.mul_le_mul_right _ (by omega)
          have hpow : ((acc + 1) * 16) * 16 ^ rest.length =
              (acc + 1) * 16 ^ (rest.length + 1) := by
            rw [pow_succ]
            ring
          simp only [List.length_cons]
          calc v < (acc * 16 + d + 1) * 16 ^ rest.length := hrec
            _ ≤ ((acc + 1) * 16) * 16 ^ rest.length := hle
            _ = (acc + 1) * 16 ^ (rest.length + 1) := hpow

/-- A digit run of `k` characters is below `16^k`. -/
lemma parseDigits_bound {l : List Char} {v : Nat} (h : parseDigits l = some v) :
    v < 16 ^ l.length := by
  cases l with
  | nil => simp [parseDigits] at h
  | cons ch rest =>
    rw [parseDigits] at h
    cases hv : hexVal ch with
    | none => rw [hv] at h; cases h
    | some d =>
      rw [hv] at h
      have hd : d ≤ 15 := hexVal_le hv
      have hrec := goDigits_bound rest.length rest le_rfl d v h
      have hle : (d + 1) * 16 ^ rest.length ≤ 16 * 16 ^ rest.length :=
        Nat.mul_le_mul_right _ (by omega)
      simp only [List.length_cons]
      calc v < (d + 1) * 16 ^ rest.length := hrec
        _ ≤ 16 * 16 ^ rest.length := hle
        _ = 16 ^ (rest.length + 1) := by rw [pow_succ]; ring

/-- The digit run after a base marker is also below `16^k`. -/
lemma parseAfterMark_bound {l : List Char} {v : Nat}
    (h : parseAfterMark l = some v) : v < 16 ^ l.length := by
  cases l with
  | nil => simp [parseAfterMark] at h
  | cons ch rest =>
    rw [parseAfterMark] at h
    by_cases hu : ch = '_'
    · rw [if_pos hu] at h
      have := parseDigits_bound h
      calc v < 16 ^ rest.length := this
        _ ≤ 16 ^ (ch :: rest).length :=
          Nat.pow_le_pow_right (by norm_num) (by simp)
    · rw [if_neg hu] at h
      exact parseDigits_bound h

/-- The unsigned literal body of `k` characters is below `16^k`. -/
lemma parseBody_bound {l : List Char} {v : Nat} (h : parseBody l = some v) :
    v < 16 ^ l.length := by
  match l with
  | [] => simp [parseBody, parseDigits] at h
  | [c] =>
    rw [show parseBody [c] = parseDigits [c] from rfl] at h
    exact parseDigits_bound h
  | c0 :: c1 :: rest =>
    rw [parseBody] at h
    by_cases hpre : c0 = '0' ∧ (c1 = 'x' ∨ c1 = 'X')
    · rw [if_pos hpre] at h
      have := parseAfterMark_bound h
      calc v < 16 ^ rest.length := this
        _ ≤ 16 ^ (c0 :: c1 :: rest).length :=
          Nat.pow_le_pow_right (by norm_num) (by simp; omega)
    · rw [if_neg hpre] at h
      exact parseDigits_bound h

/-- A signed literal of `k` characters lies strictly between `-16^k` and
`16^k`. -/
lemma parseSigned_bound {l : List Char} {v : Int} (h : parseSigned l = some v) :
    -(16 ^ l.length : Int) < v ∧ v < 16 ^ l.length := by
  cases l with
  | nil => simp [parseSigned] at h
  | cons ch rest =>
    have hle : (16 : Int) ^ rest.length ≤ 16 ^ (ch :: rest).length :=
      pow_le_pow_right₀ (by norm_num) (by simp)
    have hpos : (0 : Int) < 16 ^ (ch :: rest).length := by positivity
    rw [parseSigned] at h
    by_cases hplus : ch = '+'
    · rw [if_pos hplus] at h
      cases hn : parseBody rest with
      | none => rw [hn] at h; cases h
      | some n =>
        rw [hn] at h
        simp only [Option.map_some', Option.some.injEq, Int.ofNat_eq_natCast] at h
        have hb : (n : Int) < 16 ^ rest.length := by
          exact_mod_cast parseBody_bound hn
        have hnn : (0 : Int) ≤ n := Int.ofNat_nonneg n
        omega
    · rw [if_neg hplus] at h
      by_cases hminus : ch = '-'
      · rw [if_pos hminus] at h
        cases hn : parseBody rest with
        | none => rw [hn] at h; cases h
        | some n =>
          rw [hn] at h
          simp only [Option.map_some', Option.some.injEq, Int.ofNat_eq_natCast] at h
          have hb : (n : Int) < 16 ^ rest.length := by
            exact_mod_cast parseBody_bound hn
          have hnn : (0 : Int) ≤ n := Int.ofNat_nonneg n
          omega
      · rw [if_neg hminus] at h
        cases hn : parseBody (ch :: rest) with
        | none => rw [hn] at h; cases h
        | some n =>
          rw [hn] at h
          simp only [Option.map_some', Option.some.injEq, Int.ofNat_eq_natCast] at h
          have hb : (n : Int) < 16 ^ (ch :: rest).length := by
            exact_mod_cast parseBody_bound hn
          have hnn : (0 : Int) ≤ n := Int.ofNat_nonneg n
          omega

/-- Parsing `int(s, 16)` on a string of `k` characters lies strictly between
`-16^k`
and `16^k`. -/
lemma pyIntHex_bound {l : List Char} {v : Int} (h : pyIntHex l = some v) :
    -(16 ^ l.length : Int) < v ∧ v < 16 ^ l.length := by
  unfold pyIntHex at h
  have hb := parseSigned_bound h
  have hlen : (stripPySpace l).length ≤ l.length := by
    unfold stripPySpace
    calc ((l.dropWhile isPySpace).reverse.dropWhile isPySpace).reverse.length
        = ((l.dropWhile isPySpace).reverse.dropWhile isPySpace).length := by
          rw [List.length_reverse]
      _ ≤ (l.dropWhile isPySpace).reverse.length :=
          (List.dropWhile_sublist _).length_le
      _ = (l.dropWhile isPySpace).length := by rw [List.length_reverse]
      _ ≤ l.length := (List.dropWhile_sublist _).length_le
  have hle : (16 : Int) ^ (stripPySpace l).length ≤ 16 ^ l.length :=
    pow_le_pow_right₀ (by norm_num) hlen
  constructor
  · have := hb.1
    omega
  · have := hb.2
    omega

/-- A successful `int(s, 16)` on a string of hexadecimal digits only is
nonnegative. -/
lemma pyIntHex_nonneg_of_hex {l : List Char} {v : Int}
    (hhex : ∀ ch ∈ l, (hexVal ch).isSome) (h : pyIntHex l = some v) :
    0 ≤ v := by
  unfold pyIntHex at h
  have hnospace : ∀ ch ∈ l, isPySpace ch = false := by
    intro ch hm
    obtain ⟨d, hd⟩ := Option.isSome_iff_exists.mp (hhex ch hm)
    exact (hexVal_not_special hd).2.2.2.2.2
  rw [stripPySpace_eq_self hnospace] at h
  cases l with
  | nil => simp [parseSigned] at h
  | cons ch rest =>
    obtain ⟨d, hd⟩ :=
      Option.isSome_iff_exists.mp (hhex ch (List.mem_cons_self ch rest))
    obtain ⟨-, hplus, hminus, -⟩ := hexVal_not_special hd
    rw [parseSigned, if_neg hplus, if_neg hminus] at h
    cases hn : parseBody (ch :: rest) with
    | none => rw [hn] at h; cases h
    | some n =>
      rw [hn] at h
      simp only [Option.map_some', Option.some.injEq] at h
      rw [← h]
      exact Int.ofNat_nonneg n

end ParserLemmas

section RoundTrip

/-- Rendering with `hexDigitChar` gives, for every value below 16, a digit
that parses back to
the same value. -/
lemma hexVal_hexDigitChar {d : Nat} (h : d < 16) :
    hexVal (hexDigitChar d) = some d := by
  interval_cases d <;> decide

/-- A rendered hexadecimal digit is not an underscore, a sign, a base marker
or whitespace. -/
lemma hexDigitChar_not_special {d : Nat} (h : d < 16) :
    hexDigitChar d ≠ '_' ∧ hexDigitChar d ≠ '+' ∧ hexDigitChar d ≠ '-' ∧
      hexDigitChar d ≠ 'x' ∧ hexDigitChar d ≠ 'X' ∧
      isPySpace (hexDigitChar d) = false :=
  hexVal_not_special (hexVal_hexDigitChar h)

/-- One digit step of the scanner. -/
lemma goDigits_cons_hex (acc d : Nat) (ch : Char) (rest : List Char)
    (hch : hexVal ch = some d) :
    goDigits acc (ch :: rest) = goDigits (acc * 16 + d) rest := by
  have hu : ch ≠ '_' := (hexVal_not_special hch).1
  rw [goDigits.eq_def]
  simp only
  rw [if_neg hu, hch]

/-- First digit step of the scanner. -/
lemma parseDigits_cons_hex (d : Nat) (ch : Char) (rest : List Char)
    (hch : hexVal ch = some d) : parseDigits (ch :: rest) = goDigits d rest := by
  rw [parseDigits, hch]

/-- Parsing the four-hex-digit rendering of `L < 16^4` with `int(s, 16)`
recovers `L`. -/
lemma pyIntHex_toHex4 {L : Nat} (hL : L < 65536) :
    pyIntHex (toHex4 L) = some (L : Int) := by
  have h1 : L / 4096 % 16 < 16 := Nat.mod_lt _ (by norm_num)
  have h2 : L / 256 % 16 < 16 := Nat.mod_lt _ (by norm_num)
  have h3 : L / 16 % 16 < 16 := Nat.mod_lt _ (by norm_num)
  have h4 : L % 16 < 16 := Nat.mod_lt _ (by norm_num)
  obtain ⟨u1, p1, m1, x1, X1, s1⟩ := hexDigitChar_not_special h1
  obtain ⟨u2, p2, m2, x2, X2, s2⟩ := hexDigitChar_not_special h2
  obtain ⟨u3, p3, m3, x3, X3, s3⟩ := hexDigitChar_not_special h3
  obtain ⟨u4, p4, m4, x4, X4, s4⟩ := hexDigitChar_not_special h4
  unfold pyIntHex toHex4
  rw [stripPySpace_eq_self ?hs]
  case hs =>
    intro ch hm
    simp only [List.mem_cons, List.not_mem_nil, or_false] at hm
    rcases hm with rfl | rfl | rfl | rfl
    exacts [s1, s2, s3, s4]
  rw [parseSigned, if_neg p1, if_neg m1]
  rw [parseBody, if_neg (by rintro ⟨-, hx | hX⟩; exacts [x2 hx, X2 hX])]
  rw [parseDigits_cons_hex _ _ _ (hexVal_hexDigitChar h1)]
  rw [goDigits_cons_hex _ _ _ _ (hexVal_hexDigitChar h2)]
  rw [goDigits_cons_hex _ _ _ _ (hexVal_hexDigitChar h3)]
  rw [goDigits_cons_hex _ _ _ _ (hexVal_hexDigitChar h4)]
  simp only [goDigits, Option.map_some', Option.some.injEq, Int.ofNat_eq_natCast]
  have : (((L / 4096 % 16) * 16 + L / 256 % 16) * 16 + L / 16 % 16) * 16 + L % 16 = L := by
    omega
  exact_mod_cast congrArg (Nat.cast : Nat → Int) this

end RoundTrip

section Structural

/-- When the buffer ends in a three-character terminator, the payload slice
`msg[len(cmd)+1:-3]` keeps the part of the body after position `n + 1`. -/
lemma payload_append_etx (n : Nat) (front etx : List Char)
    (hetx : etx.length = 3) :
    payload n (front ++ etx) = front.drop (n + 1) := by
  unfold payload
  have hc : ((n : Int) + 1) = ((n + 1 : Nat) : Int) := by push_cast; ring
  rw [hc, show (-(etxLen : Int)) = (-((3 : Nat) : Int)) from rfl]
  rw [pySlice_negEnd _ _ 3 (by norm_num)]
  rw [List.length_append, hetx, Nat.add_sub_cancel, List.take_left]

/-- Any buffer that starts with a valid pack name followed by a two-character
valid question passes the guard of line 72. -/
lemma echoValid_append (pack ques rest : List Char)
    (hpack : pack ∈ batPackSet) (hques : ques ∈ batQuesSet)
    (hq2 : ques.length = 2) :
    echoValid (pack ++ ques).length (pack ++ ques ++ rest) := by
  have hp5 : pack.length = 5 := by
    fin_cases hpack <;> rfl
  have h7 : (pack ++ ques).length = 7 := by
    rw [List.length_append, hp5, hq2]
  unfold echoValid
  rw [h7]
  have e2 : ((7 : Nat) : Int) - ((quesLen : Nat) : Int) = ((5 : Nat) : Int) := by
    simp [quesLen]
  constructor
  · rw [e2, pySlice_nat]
    have ht : ((pack ++ ques) ++ rest).take 7 = pack ++ ques :=
      List.take_left' h7
    rw [ht, List.drop_left' hp5]
    exact hques
  · rw [e2, show ((0 : Int)) = ((0 : Nat) : Int) from rfl, pySlice_nat]
    rw [List.drop_zero, List.append_assoc, List.take_left' hp5]
    exact hpack

/-- Ten four-character tokens with leading one-character separators occupy
five characters per slot. -/
lemma leadGlue_length (seps : List Char) (toks : List (List Char))
    (hlen : seps.length = toks.length) (htok : ∀ t ∈ toks, t.length = 4) :
    (leadGlue seps toks).length = 5 * toks.length := by
  induction seps generalizing toks with
  | nil =>
    cases toks with
    | nil => simp [leadGlue]
    | cons t ts => simp at hlen
  | cons s ss ih =>
    cases toks with
    | nil => simp at hlen
    | cons t ts =>
      have ht4 : t.length = 4 := htok t (List.mem_cons_self t ts)
      have hrec := ih ts (by simpa using hlen)
        (fun u hu => htok u (List.mem_cons_of_mem t hu))
      simp only [leadGlue, List.zipWith_cons_cons, List.flatten_cons,
        List.length_append, List.length_cons] at hrec ⊢
      rw [hrec, ht4]
      ring

/-- Unfolding one slot of the glued reading area. -/
lemma leadGlue_cons (s : Char) (ss : List Char) (t : List Char)
    (ts : List (List Char)) :
    leadGlue (s :: ss) (t :: ts) = (s :: t) ++ leadGlue ss ts := by
  simp [leadGlue]

/-- Slot `i` of the glued reading area sits at offset `5*i + 1` and is the
`i`-th token. -/
lemma leadGlue_slice :
    ∀ (i : Nat) (seps : List Char) (toks : List (List Char))
      (h : i < toks.length), seps.length = toks.length →
      (∀ t ∈ toks, t.length = 4) →
      ((leadGlue seps toks).take (5 * i + 5)).drop (5 * i + 1) =
        toks.get ⟨i, h⟩ := by
  intro i
  induction i with
  | zero =>
    intro seps toks h hlen htok
    cases toks with
    | nil => simp at h
    | cons t ts =>
      cases seps with
      | nil => simp at hlen
      | cons s ss =>
        have ht4 : t.length = 4 := htok t (List.mem_cons_self t ts)
        rw [leadGlue_cons, List.cons_append]
        norm_num
        rw [List.take_append_of_le_length (by omega),
          List.take_of_length_le (by omega)]
  | succ i ih =>
    intro seps toks h hlen htok
    cases toks with
    | nil => simp at h
    | cons t ts =>
      cases seps with
      | nil => simp at hlen
      | cons s ss =>
        have ht4 : t.length = 4 := htok t (List.mem_cons_self t ts)
        have h5 : (s :: t).length = 5 := by simp [ht4]
        rw [leadGlue_cons]
        rw [show 5 * (i + 1) + 5 = (s :: t).length + (5 * i + 5) by
          rw [h5]; ring]
        rw [List.take_append]
        rw [show 5 * (i + 1) + 1 = (s :: t).length + (5 * i + 1) by
          rw [h5]; ring]
        rw [List.drop_append]
        have hrec := ih ss ts (by simpa using h) (by simpa using hlen)
          (fun u hu => htok u (List.mem_cons_of_mem t hu))
        rw [hrec]
        simp

end Structural

section Inversion

/-- Inversion: `send_cmd` hands back a reading pair exactly when the buffer is
longer than an echo, the echoed prefix passes the guard, and the latency field
parses; the readings are then the ten fixed-offset slices. -/
lemma sendCmdDecode_reading_iff {cmd msg : List Char} {lat : Int}
    {rs : List (List Char)} :
    sendCmdDecode cmd msg = PyResult.reading lat rs ↔
      msg.length ≠ cmd.length ∧ echoValid cmd.length msg ∧
      pyIntHex (latField cmd.length msg) = some lat ∧
      rs = batReadings cmd.length msg := by
  unfold sendCmdDecode
  split_ifs with h1 h2
  · simp [h1]
  · cases hp : pyIntHex (latField cmd.length msg) with
    | some l0 =>
      constructor
      · intro h
        injection h with ha hb
        exact ⟨h1, h2, by rw [ha], hb.symm⟩
      · rintro ⟨-, -, hl, hr⟩
        injection hl with ha
        rw [ha, hr]
    | none =>
      constructor
      · intro h
        cases h
      · rintro ⟨-, -, hl, -⟩
        cases hl
  · constructor
    · intro h
      cases h
    · rintro ⟨-, hec, -⟩
      exact absurd hec h2

end Inversion

section Claims

/-- C1: for every command string `c` and every response buffer `r` accumulated
during the wait window with `len(r) == len(c)`, the decode step of
`Bus.send_cmd` returns the no-response value `None`, regardless of the
contents of `r`. -/
theorem C1_echo_only_returns_none (cmd resp : List Char)
    (h : resp.length = cmd.length) :
    sendCmdDecode cmd resp = PyResult.retNone := by
  unfold sendCmdDecode
  rw [if_pos h]

/-- Witness for C1 at the echo of `"#bat1?v"`. -/
theorem C1_echo_only_returns_none_witness :
    sendCmdDecode cmdBat1V cmdBat1V = PyResult.retNone :=
  C1_echo_only_returns_none cmdBat1V cmdBat1V rfl

/-- C4: for every response buffer whose length differs from the command's and
whose echoed prefix does not pass the address/opcode validation, decode does
not raise and returns `None` rather than a reading pair. -/
theorem C4_unrecognised_echo_returns_none (cmd resp : List Char)
    (hlen : resp.length ≠ cmd.length)
    (hecho : ¬ echoValid cmd.length resp) :
    sendCmdDecode cmd resp = PyResult.retNone := by
  unfold sendCmdDecode
  rw [if_neg hlen, if_neg hecho]

/-- Witness for C4 on a garbage buffer. -/
theorem C4_unrecognised_echo_returns_none_witness :
    sendCmdDecode cmdBat1V ['g', 'a', 'r', 'b', 'a', 'g', 'e', '!'] =
      PyResult.retNone :=
  C4_unrecognised_echo_returns_none cmdBat1V
    ['g', 'a', 'r', 'b', 'a', 'g', 'e', '!'] (by decide) (by decide)

/-- C9: the decoded result of `Bus.send_cmd` depends on the command only
through its length: two commands of equal length decode any accumulated buffer
identically, because only the buffer's own prefix slices are validated. -/
theorem C9_decode_depends_only_on_length (c1 c2 msg : List Char)
    (h : c1.length = c2.length) :
    sendCmdDecode c1 msg = sendCmdDecode c2 msg := by
  unfold sendCmdDecode
  rw [h]

/-- Witness for C9: the valid command and a same-length garbage command
decode the example buffer identically. -/
theorem C9_decode_depends_only_on_length_witness :
    sendCmdDecode cmdBat1V bufSepExample =
      sendCmdDecode ['#', 'b', 'a', 't', '9', '?', 'z'] bufSepExample :=
  C9_decode_depends_only_on_length cmdBat1V
    ['#', 'b', 'a', 't', '9', '?', 'z'] bufSepExample rfl

/-- C3 counterexample: on the buffer `"#bat1?vXGGGGETX"` the guard passes but
the latency field `GGGG` is not a base-16 literal, so `int(.., 16)` raises
`ValueError` and the decode step does not return a value. -/
theorem C3_decode_raises_on_malformed_latency :
    sendCmdDecode cmdBat1V bufBadLat = PyResult.exn := by decide

/-- C3 amended: for ASCII buffers, the decode step returns `None` (and cannot
raise) on an echo-only window or a mismatched address/opcode, but when the
prefix validates it raises `ValueError` exactly when the latency field does
not parse as a base-16 integer literal.  The ASCII hypothesis scopes the
statement to where `pyIntHex` coincides with CPython's `int` (real `int` also
accepts non-ASCII Unicode digit fields the model rejects). -/
theorem C3_exn_characterisation (cmd resp : List Char)
    (hascii : ∀ ch ∈ resp, ch.toNat < 128) :
    sendCmdDecode cmd resp = PyResult.exn ↔
      resp.length ≠ cmd.length ∧ echoValid cmd.length resp ∧
        pyIntHex (latField cmd.length resp) = none := by
  unfold sendCmdDecode
  split_ifs with h1 h2
  · simp [h1]
  · cases hp : pyIntHex (latField cmd.length resp) with
    | some l0 =>
      constructor
      · intro h
        cases h
      · rintro ⟨-, -, hl⟩
        cases hl
    | none => simp [h1, h2]
  · constructor
    · intro h
      cases h
    · rintro ⟨-, hec, -⟩
      exact absurd hec h2

/-- Witness for C3 amended: a buffer so short that the latency field is empty
makes the decode step raise. -/
theorem C3_exn_characterisation_witness :
    sendCmdDecode cmdBat1V bufEmptyLat = PyResult.exn :=
  (C3_exn_characterisation cmdBat1V bufEmptyLat (by decide)).mpr
    ⟨by decide, by decide, by decide⟩

/-- C7 counterexample: the buffer `"#bat1?vX-fffETX"` is accepted and decodes
to the negative latency `-4095`, refuting non-negativity of the returned
latency. -/
theorem C7_negative_latency_example :
    sendCmdDecode cmdBat1V bufNegLat =
      PyResult.reading (-4095) (List.replicate 10 []) ∧ (-4095 : Int) < 0 :=
  ⟨by decide, by decide⟩

/-- C7 amended: whenever decode returns a reading pair, the latency is the
Python base-16 parse of the (up to four character) latency field; it always
lies strictly between `-16^4` and `16^4`, and it is nonnegative whenever the
field consists of hexadecimal digits only (a signed field such as `-fff` can
make it negative). -/
theorem C7_latency_parse_and_bounds (cmd resp : List Char) (lat : Int)
    (rs : List (List Char))
    (h : sendCmdDecode cmd resp = PyResult.reading lat rs) :
    pyIntHex (latField cmd.length resp) = some lat ∧
      -(16 ^ 4 : Int) < lat ∧ lat < 16 ^ 4 ∧
      ((∀ ch ∈ latField cmd.length resp, (hexVal ch).isSome) → 0 ≤ lat) := by
  obtain ⟨-, -, hlat, -⟩ := sendCmdDecode_reading_iff.mp h
  have hlen4 : (latField cmd.length resp).length ≤ 4 := by
    unfold latField
    have hb := length_pySlice_le (payload cmd.length resp) 0 4
    simpa [hexLen] using hb
  obtain ⟨hb1, hb2⟩ := pyIntHex_bound hlat
  have hple : (16 : Int) ^ (latField cmd.length resp).length ≤ 16 ^ 4 :=
    pow_le_pow_right₀ (by norm_num) hlen4
  exact ⟨hlat, by omega, by omega, fun hhex => pyIntHex_nonneg_of_hex hhex hlat⟩

/-- Witness for C7 amended at the negative-latency buffer. -/
theorem C7_latency_parse_and_bounds_witness :
    pyIntHex (latField cmdBat1V.length bufNegLat) = some (-4095) ∧
      -(16 ^ 4 : Int) < -4095 ∧ (-4095 : Int) < 16 ^ 4 ∧
      ((∀ ch ∈ latField cmdBat1V.length bufNegLat, (hexVal ch).isSome) →
        (0 : Int) ≤ -4095) :=
  C7_latency_parse_and_bounds cmdBat1V bufNegLat (-4095)
    (List.replicate 10 []) (by decide)

/-- C8 counterexample: the accepted buffer `"#bat1?vX0005_zzETX"` returns the
two-character, non-hexadecimal token `zz` in slot 0 — neither a four-character
hex token nor the empty string. -/
theorem C8_short_nonhex_token_example :
    sendCmdDecode cmdBat1V bufShortTok =
      PyResult.reading 5 (['z', 'z'] :: List.replicate 9 []) ∧
      ['z', 'z'] ∈ (['z', 'z'] :: List.replicate 9 ([] : List Char)) ∧
      (['z', 'z'] : List Char).length ≠ 4 ∧ (['z', 'z'] : List Char) ≠ [] ∧
      hexVal 'z' = none :=
  ⟨by decide, by decide, by decide, by decide, by decide⟩

/-- C8 amended: whenever decode returns a reading pair, every element of the
readings sequence is a verbatim slice of the payload of at most four
characters; tokens can be shorter than four characters or contain non-hex
characters, and the empty string marks an unpopulated slot. -/
theorem C8_tokens_at_most_four_chars (cmd resp : List Char) (lat : Int)
    (rs : List (List Char))
    (h : sendCmdDecode cmd resp = PyResult.reading lat rs) :
    ∀ t ∈ rs, t.length ≤ 4 := by
  obtain ⟨-, -, -, hrs⟩ := sendCmdDecode_reading_iff.mp h
  subst hrs
  intro t ht
  simp only [batReadings, List.mem_map, List.mem_range] at ht
  obtain ⟨i, -, rfl⟩ := ht
  have hb := length_pySlice_le (payload cmd.length resp)
    ((i + 1) * (hexLen + 1)) hexLen
  simpa [hexLen] using hb

/-- Witness for C8 amended at the `zz` token. -/
theorem C8_tokens_at_most_four_chars_witness :
    (['z', 'z'] : List Char).length ≤ 4 :=
  C8_tokens_at_most_four_chars cmdBat1V bufShortTok 5
    (['z', 'z'] :: List.replicate 9 []) (by decide) ['z', 'z'] (by decide)

/-- C5: whenever decode returns a reading pair the readings sequence has
exactly ten entries in slot order; on a reply with all ten slots populated all
ten tokens come back in slot order, and on a reply with only three of ten
slots populated the remaining seven are empty strings, not omitted. -/
theorem C5_ten_slots_in_order :
    (∀ (cmd resp : List Char) (lat : Int) (rs : List (List Char)),
        sendCmdDecode cmd resp = PyResult.reading lat rs → rs.length = 10) ∧
      sendCmdDecode cmdBat1V bufTenSlots = PyResult.reading 5 tenToks ∧
      sendCmdDecode cmdBat1V bufThreeSlots =
        PyResult.reading 5
          ([['0', '0', 'c', '8'], ['0', '1', '9', '0'], ['0', '1', '2', '3']] ++
            List.replicate 7 []) := by
  refine ⟨?_, by decide, by decide⟩
  intro cmd resp lat rs h
  obtain ⟨-, -, -, hrs⟩ := sendCmdDecode_reading_iff.mp h
  subst hrs
  simp [batReadings, maxBatNum]

/-- Witness for C5 at the fully populated buffer. -/
theorem C5_ten_slots_in_order_witness : (tenToks : List (List Char)).length = 10 :=
  C5_ten_slots_in_order.1 cmdBat1V bufTenSlots 5 tenToks (by decide)

/-- C6 counterexample: the spec's example buffer
`"#bat1?v" + "0005" + "00c8_" + "0190_" + "0000_"*8 + "ETX"` decodes to
latency `0x0050 = 80` — not `5` — with mis-aligned reading tokens, because the
code skips one character after the echo before the latency field. -/
theorem C6_spec_example_mismatch :
    sendCmdDecode cmdBat1V bufSpecExample =
      PyResult.reading 80
        [['c', '8', '_', '0'], ['9', '0', '_', '0'], ['0', '0', '_', '0'],
         ['0', '0', '_', '0'], ['0', '0', '_', '0'], ['0', '0', '_', '0'],
         ['0', '0', '_', '0'], ['0', '0', '_', '0'], ['0', '0', '_', '0'],
         ['0', '0', '_']] ∧
      ¬ ∃ rs, sendCmdDecode cmdBat1V bufSpecExample = PyResult.reading 5 rs := by
  have h : sendCmdDecode cmdBat1V bufSpecExample =
      PyResult.reading 80
        [['c', '8', '_', '0'], ['9', '0', '_', '0'], ['0', '0', '_', '0'],
         ['0', '0', '_', '0'], ['0', '0', '_', '0'], ['0', '0', '_', '0'],
         ['0', '0', '_', '0'], ['0', '0', '_', '0'], ['0', '0', '_', '0'],
         ['0', '0', '_']] := by decide
  refine ⟨h, ?_⟩
  rintro ⟨rs, hrs⟩
  rw [h] at hrs
  injection hrs with ha hb
  exact absurd ha (by decide)

/-- C6 amended: with one separator character in front of every four-character
field (the layout the code's slicing consumes), the example decodes to latency
`5` and readings beginning `00c8`, `0190`, `0000`, …. -/
theorem C6_separated_example :
    sendCmdDecode cmdBat1V bufSepExample = PyResult.reading 5 exToks := by
  decide

/-- C10: `q` is listed in `bat_ques_set` as a valid question, yet for every
command made of a recognised pack name followed by `q`, and every buffer that
properly extends that command's echo, `send_cmd` returns `None`: the guard
compares a two-character slice of the buffer against the question set, which
the one-character opcode `q` can never match on a genuine echo. -/
theorem C10_q_question_never_decodes :
    ['q'] ∈ batQuesSet ∧
      ∀ pack ∈ batPackSet, ∀ ext : List Char, ext ≠ [] →
        sendCmdDecode (pack ++ ['q']) ((pack ++ ['q']) ++ ext) =
          PyResult.retNone := by
  refine ⟨by decide, ?_⟩
  intro pack hp ext hext
  have hp5 : pack.length = 5 := by fin_cases hp <;> rfl
  have h6 : (pack ++ ['q']).length = 6 := by simp [hp5]
  unfold sendCmdDecode
  rw [if_neg ?hlen, if_neg ?hecho]
  case hlen =>
    rw [List.length_append, h6]
    have := List.length_pos.mpr hext
    omega
  case hecho =>
    intro hec
    unfold echoValid at hec
    obtain ⟨hq, -⟩ := hec
    rw [h6] at hq
    have e2 : ((6 : Nat) : Int) - ((quesLen : Nat) : Int) = ((4 : Nat) : Int) := by
      simp [quesLen]
    rw [e2, pySlice_nat, List.take_left' h6,
      List.drop_append_of_le_length (by omega)] at hq
    obtain ⟨c, hc⟩ := List.length_eq_one.mp
      (show (pack.drop 4).length = 1 by simp [hp5])
    rw [hc] at hq
    simp [batQuesSet] at hq

/-- Witness for C10 on pack 1 with a one-character proper extension plus
terminator. -/
theorem C10_q_question_never_decodes_witness :
    sendCmdDecode (['#', 'b', 'a', 't', '1'] ++ ['q'])
      ((['#', 'b', 'a', 't', '1'] ++ ['q']) ++ ['E', 'T', 'X']) =
      PyResult.retNone :=
  C10_q_question_never_decodes.2 ['#', 'b', 'a', 't', '1'] (by decide)
    ['E', 'T', 'X'] (by decide)

/-- C2 counterexample: for the command `"#bat1?v"`, latency `5` and the
worked example's ten tokens, no reply of the layout the spec states (the echo,
then the four-hex-digit latency field directly, then the ten reading tokens
each with its single-character separator, then a three-character terminator)
decodes back to `(5, tokens)`: the code skips one character after the echo, so
the latency field it actually reads is `0050`, which parses to `80`. -/
theorem C2_spec_layout_fails :
    ¬ ∃ (seps etx : List Char), seps.length = 10 ∧ etx.length = 3 ∧
      sendCmdDecode cmdBat1V (specReply cmdBat1V 5 exToks seps etx) =
        PyResult.reading 5 exToks := by
  rintro ⟨seps, etx, h10, h3, hdec⟩
  obtain ⟨-, -, hlat, -⟩ := sendCmdDecode_reading_iff.mp hdec
  cases seps with
  | nil => simp at h10
  | cons s0 srest =>
    unfold specReply at hlat
    unfold latField at hlat
    rw [payload_append_etx cmdBat1V.length _ _ h3] at hlat
    rw [show toHex4 5 = ['0', '0', '0', '5'] from by decide] at hlat
    rw [show cmdBat1V.length = 7 from rfl] at hlat
    rw [List.drop_append_of_le_length
      (show 7 + 1 ≤ (cmdBat1V ++ ['0', '0', '0', '5']).length by decide)] at hlat
    rw [show (cmdBat1V ++ ['0', '0', '0', '5']).drop (7 + 1) = ['0', '0', '5']
      from by decide] at hlat
    obtain ⟨grest, hG⟩ : ∃ g, trailGlue exToks (s0 :: srest) = '0' :: g :=
      ⟨_, rfl⟩
    rw [hG] at hlat
    rw [show ((0 : Int)) = ((0 : Nat) : Int) from rfl,
      show ((hexLen : Nat) : Int) = (((4 : Nat)) : Int) from rfl,
      pySlice_nat, List.drop_zero] at hlat
    rw [show (['0', '0', '5'] ++ '0' :: grest).take 4 = ['0', '0', '5', '0']
      from rfl] at hlat
    exact absurd hlat (by decide)

/-- C2 amended: the round-trip holds for the reply layout the code actually
consumes, in which one single-character separator additionally precedes the
latency field (every four-character field is preceded by its separator): for
every valid command, every latency below `16^4` and every list of ten
four-character hex tokens, decoding that reply recovers exactly the latency
and the tokens in order. -/
theorem C2_roundtrip_with_leading_separators
    (pack ques : List Char) (hpack : pack ∈ batPackSet)
    (hques : ques ∈ batQuesSet) (hq2 : ques.length = 2)
    (L : Nat) (hL : L < 16 ^ 4)
    (toks : List (List Char)) (h10 : toks.length = 10)
    (htok4 : ∀ t ∈ toks, t.length = 4)
    (htokhex : ∀ t ∈ toks, ∀ ch ∈ t, (hexVal ch).isSome)
    (sep0 : Char) (seps : List Char) (hseps : seps.length = 10)
    (etx : List Char) (hetx : etx.length = 3) :
    sendCmdDecode (pack ++ ques)
      (sepReply (pack ++ ques) L toks sep0 seps etx) =
      PyResult.reading (L : Int) toks := by
  have hp5 : pack.length = 5 := by fin_cases hpack <;> rfl
  have h7 : (pack ++ ques).length = 7 := by rw [List.length_append, hp5, hq2]
  have hsl : seps.length = toks.length := by rw [hseps, h10]
  have hglen : (leadGlue seps toks).length = 50 := by
    rw [leadGlue_length seps toks hsl htok4, h10]
  have hh4 : (toHex4 L).length = 4 := rfl
  have hL6 : L < 65536 := by norm_num at hL; exact hL
  unfold sepReply
  have hmsg : (pack ++ ques) ++ [sep0] ++ toHex4 L ++ leadGlue seps toks ++ etx
      = (pack ++ ques) ++
        ([sep0] ++ (toHex4 L ++ (leadGlue seps toks ++ etx))) := by
    simp [List.append_assoc]
  have hpay : payload (pack ++ ques).length
      ((pack ++ ques) ++ [sep0] ++ toHex4 L ++ leadGlue seps toks ++ etx) =
      toHex4 L ++ leadGlue seps toks := by
    rw [payload_append_etx _ _ _ hetx]
    rw [List.append_assoc ((pack ++ ques) ++ [sep0]) (toHex4 L)
      (leadGlue seps toks)]
    rw [h7]
    exact List.drop_left'
      (by simp only [List.length_append, List.length_cons, List.length_nil]
          omega)
  have hfield : latField (pack ++ ques).length
      ((pack ++ ques) ++ [sep0] ++ toHex4 L ++ leadGlue seps toks ++ etx) =
      toHex4 L := by
    unfold latField
    rw [hpay]
    rw [show ((0 : Int)) = ((0 : Nat) : Int) from rfl,
      show ((hexLen : Nat) : Int) = (((4 : Nat)) : Int) from rfl,
      pySlice_nat, List.drop_zero]
    rw [List.take_append_of_le_length (le_of_eq hh4.symm)]
    exact List.take_of_length_le (le_of_eq hh4)
  refine sendCmdDecode_reading_iff.mpr ⟨?_, ?_, ?_, ?_⟩
  · simp only [List.length_append, List.length_cons, List.length_nil,
      h7, hh4, hglen, hetx]
    omega
  · rw [hmsg]
    exact echoValid_append pack ques _ hpack hques hq2
  · rw [hfield]
    exact pyIntHex_toHex4 hL6
  · refine (List.ext_getElem ?_ ?_).symm
    · simp [batReadings, maxBatNum, h10]
    · intro i hi1 hi2
      simp only [batReadings, List.getElem_map, List.getElem_range]
      rw [hpay, pySlice_nat]
      have e1 : (i + 1) * (hexLen + 1) + hexLen =
          (toHex4 L).length + (5 * i + 5) := by
        simp only [hexLen, hh4]
        ring
      have e2 : (i + 1) * (hexLen + 1) = (toHex4 L).length + (5 * i + 1) := by
        simp only [hexLen, hh4]
        ring
      rw [e1, List.take_append, e2, List.drop_append]
      have hi10 : i < toks.length := by
        simp only [batReadings, List.length_map, List.length_range,
          maxBatNum] at hi1
        omega
      have := leadGlue_slice i seps toks hi10 hsl htok4
      rw [this]
      simp

/-- Witness for C2 amended at the worked example's data. -/
theorem C2_roundtrip_with_leading_separators_witness :
    sendCmdDecode (['#', 'b', 'a', 't', '1'] ++ ['?', 'v'])
      (sepReply (['#', 'b', 'a', 't', '1'] ++ ['?', 'v']) 5 exToks '_'
        (List.replicate 10 '_') ['E', 'T', 'X']) =
      PyResult.reading ((5 : Nat) : Int) exToks :=
  C2_roundtrip_with_leading_separators ['#', 'b', 'a', 't', '1'] ['?', 'v']
    (by decide) (by decide) (by decide) 5 (by norm_num) exToks (by decide)
    (by decide) (by decide) '_' (List.replicate 10 '_') (by decide)
    ['E', 'T', 'X'] (by decide)

end Claims

end BatterySys


